import Mathlib

/-!
Verification of the GBA front-end core in `src/source/arm11/open_agb_firm.c`.

The file shallowly embeds the routines the claims are about:
`fixRomPadding`, `loadGbaRom`, `searchGameDb`, `checkSaveOverride`,
`tryDetectSaveType`, the save-type selection step of `saveDbDebug`, and the
frame-dispatch loop `gbaGfxHandler`.  Memory is modelled as a byte-addressed
total function `Nat → Nat`; writers only store values below 256.
-/

/-- Modelled from the spec: `ROM_LOC` (the fixed base address of the 32 MiB
ROM window) comes from `hardware/lgy.h`, which is not part of this source
slice.  The claims depend only on it being a fixed constant. -/
def ROM_LOC : Nat := 0x20000000

/-- Modelled from the spec: `MAX_ROM_SIZE` (32 MiB window capacity) from
`hardware/lgy.h`. -/
def MAX_ROM_SIZE : Nat := 0x2000000

/-- Byte-addressed memory. -/
abbrev Mem := Nat → Nat

/-- Little-endian 32-bit read, as the ARM11 does for `*(u32*)a`. -/
def readWord (m : Mem) (a : Nat) : Nat :=
  m a + m (a + 1) * 256 + m (a + 2) * 65536 + m (a + 3) * 16777216

/-- Little-endian 32-bit store, as `*(u32*)a = w`. -/
def writeWord (m : Mem) (a w : Nat) : Mem := fun x =>
  if x = a then w % 256
  else if x = a + 1 then w / 256 % 256
  else if x = a + 2 then w / 65536 % 256
  else if x = a + 3 then w / 16777216 % 256
  else m x

/-- `memset(dst, 0xFFFFFFFF, n)`: libc memset stores the low byte 0xFF. -/
def memsetFF (m : Mem) (dst n : Nat) : Mem := fun x =>
  if dst ≤ x ∧ x < dst + n then 0xFF else m x

/-- `memcpy((void*)dst, (void*)ROM_LOC, n)` — the mirroring copy always reads
from the window base (line 125 of the source). -/
def memcpyFromBase (m : Mem) (dst n : Nat) : Mem := fun x =>
  if dst ≤ x ∧ x < dst + n then m (ROM_LOC + (x - dst)) else m x

/-- ARM `__pkhbt(a, b, 16)`: lower half from `a`, upper half from the low
16 bits of `b` (the source comment: copy lower half + 1 to upper half). -/
def pkhbt (a b : Nat) : Nat := a % 65536 + b % 65536 * 65536

/-- ARM `__uadd16`: unsigned parallel halfword-wise addition (each 16-bit
lane added modulo 2^16, no carry between lanes). -/
def uadd16 (a b : Nat) : Nat :=
  (a % 65536 + b % 65536) % 65536 +
    (a / 65536 % 65536 + b / 65536 % 65536) % 65536 * 65536

/-- The open-bus padding loop of `fixRomPadding` (lines 112-116), indexed by
the number of remaining 32-bit stores: writes `pad` at `i`, then advances
`i += 4` with `pad = __uadd16(pad, 0x00020002)`. -/
def openBusLoop (m : Mem) (i pad : Nat) : Nat → Mem
  | 0 => m
  | n + 1 => openBusLoop (writeWord m i pad) (i + 4) (uadd16 pad 0x00020002) n

/-- The mirroring loop of `fixRomPadding` (lines 122-126), indexed by the
number of remaining `memcpy` blocks of size `romSize`. -/
def mirrorLoop (m : Mem) (i romSize : Nat) : Nat → Mem
  | 0 => m
  | n + 1 => mirrorLoop (memcpyFromBase m i romSize) (i + romSize) romSize n

/-- Bounded doubling helper for `nextPow2`. -/
def nextPow2Go (x : Nat) : Nat → Nat → Nat
  | acc, 0 => acc
  | acc, fuel + 1 => if x ≤ acc then acc else nextPow2Go x (acc * 2) fuel

/-- Modelled from the spec: `nextPow2` lives in `util.h`, which is not part
of this source slice; per the spec it is the smallest power of two that is
at least `x`.  Implemented by bounded doubling (exact for `x ≤ 2^32`, the
u32 domain of the C macro) so the kernel can evaluate it. -/
def nextPow2 (x : Nat) : Nat := nextPow2Go x 1 32

/-- `u32 romSize = nextPow2(romFileSize); if(romSize < 0x100000u) romSize =
0x100000u;` (lines 103-104). -/
def romPaddedSize (romFileSize : Nat) : Nat := max (nextPow2 romFileSize) 0x100000

/-- `fixRomPadding` (lines 99-130): 0xFF fill of `[fileSize, romSize)`, then
either the open-bus pattern (romSize > 1 MiB) or 1 MiB mirroring across the
32 MiB window.  Returns the final memory and the returned `romSize`. -/
def fixRomPadding (m : Mem) (romFileSize : Nat) : Mem × Nat :=
  if 0x100000 < romPaddedSize romFileSize then
    (openBusLoop
       (memsetFF m (ROM_LOC + romFileSize) (romPaddedSize romFileSize - romFileSize))
       (ROM_LOC + romPaddedSize romFileSize)
       (pkhbt ((ROM_LOC + romPaddedSize romFileSize) / 2)
              ((ROM_LOC + romPaddedSize romFileSize) / 2 + 1))
       ((MAX_ROM_SIZE - romPaddedSize romFileSize) / 4),
     romPaddedSize romFileSize)
  else
    (mirrorLoop
       (memsetFF m (ROM_LOC + romFileSize) (romPaddedSize romFileSize - romFileSize))
       (ROM_LOC + romPaddedSize romFileSize)
       (romPaddedSize romFileSize)
       ((MAX_ROM_SIZE - romPaddedSize romFileSize) / romPaddedSize romFileSize),
     romPaddedSize romFileSize)

/-- The open-bus word formula as the spec states it (claim C2): word `k`
holds the low 16 bits of `p + 2k` in its lower half and of `p + 1 + 2k` in
its upper half, where `p = (base + paddedSize) / 2`. -/
def obWord (p k : Nat) : Nat :=
  (p + 2 * k) % 65536 + (p + 1 + 2 * k) % 65536 * 65536

/-- Reference trace of the padding value: `pad` after `k` applications of
`__uadd16(·, 0x00020002)`. -/
def padIter (pad : Nat) : Nat → Nat
  | 0 => pad
  | k + 1 => uadd16 (padIter pad k) 0x00020002

/-- Result codes used by the embedded routines (from `fs.h` / `error.h`,
observable in this file through `RES_OK`, `RES_ROM_TOO_BIG`,
`RES_NOT_FOUND`; `ioErr` stands for any other FatFs error a read returns). -/
inductive Result where
  | ok
  | romTooBig
  | notFound
  | ioErr (code : Nat)
deriving DecidableEq

/-- Abstract opened ROM file: its size, contents, and a per-1 MiB-chunk read
verdict (`none` = the `fRead` succeeds, `some e` = it fails with `e`). -/
structure RomFile where
  size : Nat
  byte : Nat → Nat
  readErr : Nat → Option Result

/-- Copy `n` bytes from `src` to `dst` (one successful `fRead`). -/
def copyBytes (m : Mem) (dst : Nat) (src : Nat → Nat) (n : Nat) : Mem := fun x =>
  if dst ≤ x ∧ x < dst + n then src (x - dst) else m x

/-- The 1 MiB chunk-streaming loop of `loadGbaRom` (lines 142-144), reading
chunk `k` onwards.  The fuel only bounds the iteration count; 33 is enough
for any file within the 32 MiB window (32 full chunks + the final short
read), so the `0` case is never reached on the guarded path. -/
def copyChunks (f : RomFile) (m : Mem) (k : Nat) : Nat → Result × Mem
  | 0 => (Result.ok, m)
  | fuel + 1 =>
    match f.readErr k with
    | some e => (e, m)
    | none =>
      if min 0x100000 (f.size - k * 0x100000) = 0x100000 then
        copyChunks f
          (copyBytes m (ROM_LOC + k * 0x100000)
            (fun j => f.byte (k * 0x100000 + j)) (min 0x100000 (f.size - k * 0x100000)))
          (k + 1) fuel
      else
        (Result.ok,
         copyBytes m (ROM_LOC + k * 0x100000)
           (fun j => f.byte (k * 0x100000 + j)) (min 0x100000 (f.size - k * 0x100000)))

/-- `loadGbaRom` (lines 132-154) for a file that opens successfully: reject
oversized files with `RES_ROM_TOO_BIG` (window and `*romSizeOut` untouched,
modelled by returning `m` and the caller's previous `prevOut`), otherwise
stream the chunks and unconditionally run `fixRomPadding`, returning the
last read's result code. -/
def loadGbaRom (f : RomFile) (m : Mem) (prevOut : Nat) : Result × Mem × Nat :=
  if f.size ≤ MAX_ROM_SIZE then
    ((copyChunks f m 0 33).1,
     (fixRomPadding (copyChunks f m 0 33).2 f.size).1,
     (fixRomPadding (copyChunks f m 0 33).2 f.size).2)
  else (Result.romTooBig, m, prevOut)

/-- Modelled from the spec plus the save-type menu printed by `saveDbDebug`
(lines 337-347): the numeric `SAVE_TYPE_*` codes from `hardware/lgy.h`. -/
def SAVE_TYPE_EEPROM_8k : Nat := 0

def SAVE_TYPE_EEPROM_8k_2 : Nat := 1

def SAVE_TYPE_EEPROM_64k : Nat := 2

def SAVE_TYPE_EEPROM_64k_2 : Nat := 3

def SAVE_TYPE_FLASH_512k_PSC_RTC : Nat := 8

def SAVE_TYPE_FLASH_1m_MRX_RTC : Nat := 10

def SAVE_TYPE_SRAM_256k : Nat := 14

def SAVE_TYPE_NONE : Nat := 15

/-- The override table of `checkSaveOverride` (lines 204-215); each 4-byte
game-code literal is read by the C code as a little-endian u32 (with the
trailing NUL), compared against `gameCode & 0xFFFFFF`. -/
def overrideLut : List (Nat × Nat) :=
  [(0x00000000, SAVE_TYPE_SRAM_256k),   -- "\0\0\0\0"  homebrew
   (0x00424D47, SAVE_TYPE_SRAM_256k),   -- "GMB\0"     Goomba Color
   (0x00324141, SAVE_TYPE_EEPROM_64k),  -- "AA2\0"     Super Mario Advance 2
   (0x00413341, SAVE_TYPE_EEPROM_64k),  -- "A3A\0"     Super Mario Advance 3
   (0x004C5A41, SAVE_TYPE_EEPROM_64k)]  -- "AZL\0"     Zelda ALttP & Four Swords

/-- The linear scan over `overrideLut` (lines 217-224); `0xFF` = no hit. -/
def overrideFind (code : Nat) : List (Nat × Nat) → Nat
  | [] => 0xFF
  | e :: rest => if code = e.1 then e.2 else overrideFind code rest

/-- `checkSaveOverride` (lines 197-227): game codes whose low byte is `'F'`
(70, Classic NES Series) map to EEPROM-8k; otherwise the region-stripped
code (`gameCode & 0xFFFFFF`) is looked up in the table. -/
def checkSaveOverride (gameCode : Nat) : Nat :=
  if gameCode % 256 = 70 then SAVE_TYPE_EEPROM_8k
  else overrideFind (gameCode % 16777216) overrideLut

/-- ASCII bytes of an SDK version-string literal. -/
def strBytes (s : String) : List Nat := s.toList.map Char.toNat

/-- The fixed ordered SDK version-string table of `tryDetectSaveType`
(lines 249-287). -/
def saveTypeLut : List (String × Nat) :=
  [("EEPROM_V111", SAVE_TYPE_EEPROM_8k),
   ("EEPROM_V120", SAVE_TYPE_EEPROM_8k),
   ("EEPROM_V121", SAVE_TYPE_EEPROM_64k),
   ("EEPROM_V122", SAVE_TYPE_EEPROM_8k),
   ("EEPROM_V124", SAVE_TYPE_EEPROM_64k),
   ("EEPROM_V125", SAVE_TYPE_EEPROM_8k),
   ("EEPROM_V126", SAVE_TYPE_EEPROM_8k),
   ("FLASH_V120", SAVE_TYPE_FLASH_512k_PSC_RTC),
   ("FLASH_V121", SAVE_TYPE_FLASH_512k_PSC_RTC),
   ("FLASH_V123", SAVE_TYPE_FLASH_512k_PSC_RTC),
   ("FLASH_V124", SAVE_TYPE_FLASH_512k_PSC_RTC),
   ("FLASH_V125", SAVE_TYPE_FLASH_512k_PSC_RTC),
   ("FLASH_V126", SAVE_TYPE_FLASH_512k_PSC_RTC),
   ("FLASH512_V130", SAVE_TYPE_FLASH_512k_PSC_RTC),
   ("FLASH512_V131", SAVE_TYPE_FLASH_512k_PSC_RTC),
   ("FLASH512_V133", SAVE_TYPE_FLASH_512k_PSC_RTC),
   ("FLASH1M_V102", SAVE_TYPE_FLASH_1m_MRX_RTC),
   ("FLASH1M_V103", SAVE_TYPE_FLASH_1m_MRX_RTC),
   ("SRAM_F_V100", SAVE_TYPE_SRAM_256k),
   ("SRAM_F_V102", SAVE_TYPE_SRAM_256k),
   ("SRAM_F_V103", SAVE_TYPE_SRAM_256k),
   ("SRAM_V110", SAVE_TYPE_SRAM_256k),
   ("SRAM_V111", SAVE_TYPE_SRAM_256k),
   ("SRAM_V112", SAVE_TYPE_SRAM_256k),
   ("SRAM_V113", SAVE_TYPE_SRAM_256k)]

/-- `memcmp(romPtr, str, strlen(str)) == 0` over byte lists. -/
def memcmpEq (m : Mem) (p : Nat) : List Nat → Bool
  | [] => true
  | b :: bs => (m p == b) && memcmpEq m (p + 1) bs

/-- The marker test `tmp == "EEPR" || tmp == "FLAS" || tmp == "SRAM"`
(line 247, little-endian word constants as in the source). -/
def markerMatch (w : Nat) : Bool :=
  w == 0x52504545 || w == 0x53414C46 || w == 0x4D415253

/-- The inner `for(i...25)` first-match lookup of `tryDetectSaveType`
(lines 289-305), without the EEPROM promotion. -/
def lutSearch (m : Mem) (p : Nat) : List (String × Nat) → Option Nat
  | [] => none
  | e :: rest => if memcmpEq m p (strBytes e.1) then some e.2 else lutSearch m p rest

/-- What one outer-loop iteration of the scan does at word address `p`. -/
def wordMatch (m : Mem) (p : Nat) : Option Nat :=
  if markerMatch (readWord m p) then lutSearch m p saveTypeLut else none

/-- The outer scan loop of `tryDetectSaveType` (lines 242-307), indexed by
the number of remaining word positions. -/
def scanLoop (m : Mem) (p : Nat) : Nat → Option Nat
  | 0 => none
  | n + 1 =>
    match wordMatch m p with
    | some t => some t
    | none => scanLoop m (p + 4) n

/-- Number of iterations of the scan: word positions `ROM_LOC + 0xE4 + 4k`
with `ROM_LOC + 0xE4 + 4k < ROM_LOC + romSize`. -/
def scanCount (romSize : Nat) : Nat := (romSize - 0xE4 + 3) / 4

/-- The EEPROM large-ROM promotion (lines 296-300 and 386-390): an 8k/64k
EEPROM base type becomes its `_2` sibling when the ROM is > 16 MiB. -/
def promoteEeprom (romSize t : Nat) : Nat :=
  if t = SAVE_TYPE_EEPROM_8k ∨ t = SAVE_TYPE_EEPROM_64k then
    if 0x1000000 < romSize then t + 1 else t
  else t

/-- `tryDetectSaveType` (lines 229-312): override table first (immediate
return on a hit), then the SDK-string scan starting after the 0xE4-byte
header, `SAVE_TYPE_NONE` if nothing matches. -/
def tryDetectSaveType (m : Mem) (romSize : Nat) : Nat :=
  if checkSaveOverride (readWord m (ROM_LOC + 0xAC)) ≠ 0xFF then
    checkSaveOverride (readWord m (ROM_LOC + 0xAC))
  else
    match scanLoop m (ROM_LOC + 0xE4) (scanCount romSize) with
    | some t => promoteEeprom romSize t
    | none => SAVE_TYPE_NONE

/-- Declarative side of C5: the SDK literal `s` is present byte-for-byte at
address `p`. -/
def sdkStrAt (m : Mem) (p : Nat) (s : String) : Prop :=
  ∀ j, j < (strBytes s).length → m (p + j) = (strBytes s).getD j 0

/-- Declarative side of C5: the word at `p` is one of the three markers. -/
def markerAt (m : Mem) (p : Nat) : Prop :=
  readWord m p = 0x52504545 ∨ readWord m p = 0x53414C46 ∨ readWord m p = 0x4D415253

/-- Declarative side of C5: scanning stops at `p` (marker plus some table
literal present). -/
def sdkHitAt (m : Mem) (p : Nat) : Prop :=
  markerAt m p ∧
    ∃ i, i < saveTypeLut.length ∧ sdkStrAt m p (saveTypeLut.getD i ("", SAVE_TYPE_NONE)).1

instance decMarkerAt (m : Mem) (p : Nat) : Decidable (markerAt m p) := by
  unfold markerAt
  infer_instance

instance decSdkStrAt (m : Mem) (p : Nat) (s : String) : Decidable (sdkStrAt m p s) := by
  unfold sdkStrAt
  exact Nat.decidableBallLT _ _

/-- `cursorSaveTypeLut` of `saveDbDebug` (line 384). -/
def cursorSaveTypeLut : List Nat := [0, 2, 8, 9, 10, 11, 14, 15]

/-- The manual save-type selection step of `saveDbDebug` (lines 384-390):
map the cursor through the table, then apply the EEPROM promotion. -/
def manualSaveTypeSelect (romSize cursor : Nat) : Nat :=
  promoteEeprom romSize (cursorSaveTypeLut.getD cursor 0)

/-- The bounds check of the database-correction flow, `dbPos > -1 || dbPos <
3253` (line 393), on the signed `s32 dbPos`. -/
def dbPosInRange (dbPos : Int) : Bool :=
  decide (dbPos > -1) || decide (dbPos < 3253)

/-- The binary-search loop of `searchGameDb` (lines 165-189).  `key i` is the
first 8 bytes of record `i`'s SHA1 read as a u64 (big-endian value, as the
claim states; only its ordering matters here).  The C loop is `while(1)`;
the fuel merely bounds the iteration count and `searchGameDb` passes enough
for the loop to reach its own exits.  `mid` uses C signed division
(truncation toward zero, `Int.tdiv`). -/
def searchLoop (key : Nat → Nat) (x : Nat) : Nat → Int → Int → Option Int
  | 0, _, _ => none
  | fuel + 1, l, r =>
    if key (l + Int.tdiv (r - l) 2).toNat = x then some (l + Int.tdiv (r - l) 2)
    else if r ≤ l ∨ r < 0 then none
    else if x < key (l + Int.tdiv (r - l) 2).toNat then
      searchLoop key x fuel l (l + Int.tdiv (r - l) 2 - 1)
    else
      searchLoop key x fuel (l + Int.tdiv (r - l) 2 + 1) r

/-- `searchGameDb` (lines 157-195) for a database file of `recordCount`
records that opens and reads successfully: binary search for the record
whose key equals `x`, bounds starting at `[0, recordCount - 1]`; `none`
models `RES_NOT_FOUND`, `some mid` models `RES_OK` with `*entryPos = mid`
(the record buffer then holds record `mid`, whose key is `x`). -/
def searchGameDb (key : Nat → Nat) (recordCount : Nat) (x : Nat) : Option Int :=
  searchLoop key x (recordCount + 2) 0 ((recordCount : Int) - 1)

/-- Events of the frame-dispatch task, in submission order.  The optional
debug texture dump on a Y press (line 499) happens after the swap and is
outside this alphabet. -/
inductive GfxEv where
  | waitOk
  | waitFail
  | clearEv
  | submitInit
  | submitSteady
  | waitP3D
  | transferEv
  | waitPPF
  | swapEv
  | taskExitEv
deriving DecidableEq

/-- One successful cycle of `gbaGfxHandler`: wait, clear, submit (the init
list on the first cycle, list2 afterwards), wait for P3D, display transfer,
wait for PPF, swap framebuffers. -/
def gfxCycle (first : Bool) : List GfxEv :=
  [GfxEv.waitOk, GfxEv.clearEv,
   if first then GfxEv.submitInit else GfxEv.submitSteady,
   GfxEv.waitP3D, GfxEv.transferEv, GfxEv.waitPPF, GfxEv.swapEv]

/-- `gbaGfxHandler` (lines 465-503) as a trace function: `inited` is the
static flag (false at task start), the list gives each `waitForEvent`
outcome (`true` = `KRES_OK`).  A failed wait breaks the loop and the task
exits; an exhausted outcome list means the task is still blocked. -/
def gbaGfxHandler (inited : Bool) : List Bool → List GfxEv
  | [] => []
  | false :: _ => [GfxEv.waitFail, GfxEv.taskExitEv]
  | true :: rest =>
    GfxEv.waitOk :: GfxEv.clearEv ::
      (if inited then GfxEv.submitSteady else GfxEv.submitInit) ::
      GfxEv.waitP3D :: GfxEv.transferEv :: GfxEv.waitPPF :: GfxEv.swapEv ::
      gbaGfxHandler true rest

/-! ### Concrete fixtures used by witnesses and counterexamples -/

/-- All-zero memory. -/
def memZero : Mem := fun _ => 0

/-- Memory fixture: game code "AA2" (Super Mario Advance 2, an override-table
entry mapping to EEPROM-64k) at header offset 0xAC, zero elsewhere. -/
def memGameAA2 : Mem := fun a =>
  if a = ROM_LOC + 0xAC then 0x41
  else if a = ROM_LOC + 0xAD then 0x41
  else if a = ROM_LOC + 0xAE then 0x32
  else 0

/-- Memory fixture: no override game code (all other bytes 1), the SDK
string "SRAM_V110" at the first scanned word (offset 0xE4). -/
def memSramV110 : Mem := fun a =>
  if a = ROM_LOC + 0xE4 then 0x53
  else if a = ROM_LOC + 0xE5 then 0x52
  else if a = ROM_LOC + 0xE6 then 0x41
  else if a = ROM_LOC + 0xE7 then 0x4D
  else if a = ROM_LOC + 0xE8 then 0x5F
  else if a = ROM_LOC + 0xE9 then 0x56
  else if a = ROM_LOC + 0xEA then 0x31
  else if a = ROM_LOC + 0xEB then 0x31
  else if a = ROM_LOC + 0xEC then 0x30
  else 1

/-- Memory fixture: no override game code (all other bytes 1), the SDK
string "EEPROM_V111" at the first scanned word (offset 0xE4). -/
def memEepromV111 : Mem := fun a =>
  if a = ROM_LOC + 0xE4 then 0x45
  else if a = ROM_LOC + 0xE5 then 0x45
  else if a = ROM_LOC + 0xE6 then 0x50
  else if a = ROM_LOC + 0xE7 then 0x52
  else if a = ROM_LOC + 0xE8 then 0x4F
  else if a = ROM_LOC + 0xE9 then 0x4D
  else if a = ROM_LOC + 0xEA then 0x5F
  else if a = ROM_LOC + 0xEB then 0x56
  else if a = ROM_LOC + 0xEC then 0x31
  else if a = ROM_LOC + 0xED then 0x31
  else if a = ROM_LOC + 0xEE then 0x31
  else 1

/-- Memory fixture: every byte 1 — no override hit and no marker anywhere. -/
def memAllOnes : Mem := fun _ => 1

/-- Database fixture: record `i` has key `10 * i + 10` (sorted ascending). -/
def dbKeyFixture : Nat → Nat := fun i => 10 * i + 10

/-- A 32 MiB + 1 byte file (oversized), reads always succeed. -/
def romFileBig : RomFile := RomFile.mk 0x2000001 (fun _ => 0) (fun _ => none)

/-- A 1.5 MiB file whose very first chunk read fails. -/
def romFileBadRead : RomFile :=
  RomFile.mk 0x180000 (fun _ => 0)
    (fun k => if k = 0 then some (Result.ioErr 1) else none)

/-! ### Pointwise facts about the memory primitives -/

theorem writeWord_b0 (m : Mem) (a w : Nat) : writeWord m a w a = w % 256 := by
  simp only [writeWord]
  split_ifs <;> omega

theorem writeWord_b1 (m : Mem) (a w : Nat) : writeWord m a w (a + 1) = w / 256 % 256 := by
  simp only [writeWord]
  split_ifs <;> omega

theorem writeWord_b2 (m : Mem) (a w : Nat) : writeWord m a w (a + 2) = w / 65536 % 256 := by
  simp only [writeWord]
  split_ifs <;> omega

theorem writeWord_b3 (m : Mem) (a w : Nat) : writeWord m a w (a + 3) = w / 16777216 % 256 := by
  simp only [writeWord]
  split_ifs <;> omega

theorem writeWord_other (m : Mem) (a w x : Nat) (h : x < a ∨ a + 3 < x) :
    writeWord m a w x = m x := by
  simp only [writeWord]
  split_ifs <;> omega

theorem readWord_writeWord (m : Mem) (a w : Nat) (h : w < 4294967296) :
    readWord (writeWord m a w) a = w := by
  unfold readWord
  rw [writeWord_b0, writeWord_b1, writeWord_b2, writeWord_b3]
  omega

theorem uadd16_lt (a b : Nat) : uadd16 a b < 4294967296 := by
  unfold uadd16
  omega

theorem pkhbt_lt (a b : Nat) : pkhbt a b < 4294967296 := by
  unfold pkhbt
  omega

/-! ### The open-bus padding loop -/

theorem openBusLoop_lower (n : Nat) : ∀ (m : Mem) (i pad a : Nat), a < i →
    openBusLoop m i pad n a = m a := by
  induction n with
  | zero => intro m i pad a _; rfl
  | succ n ih =>
    intro m i pad a ha
    show openBusLoop (writeWord m i pad) (i + 4) (uadd16 pad 0x00020002) n a = m a
    rw [ih _ _ _ _ (by omega), writeWord_other _ _ _ _ (by omega)]

theorem readWord_openBusLoop_lower (n : Nat) (m : Mem) (i pad a : Nat) (h : a + 3 < i) :
    readWord (openBusLoop m i pad n) a = readWord m a := by
  unfold readWord
  rw [openBusLoop_lower n _ _ _ _ (by omega), openBusLoop_lower n _ _ _ _ (by omega),
      openBusLoop_lower n _ _ _ _ (by omega), openBusLoop_lower n _ _ _ _ (by omega)]

theorem padIter_shift (pad : Nat) :
    ∀ k, padIter (uadd16 pad 0x00020002) k = padIter pad (k + 1)
  | 0 => rfl
  | k + 1 => by
    show uadd16 (padIter (uadd16 pad 0x00020002) k) 0x00020002 = _
    rw [padIter_shift pad k]
    rfl

theorem openBusLoop_get (n : Nat) :
    ∀ (k : Nat) (m : Mem) (i pad : Nat), k < n → pad < 4294967296 →
      readWord (openBusLoop m i pad n) (i + 4 * k) = padIter pad k := by
  induction n with
  | zero => intro k m i pad hk _; omega
  | succ n ih =>
    intro k m i pad hk hpad
    show readWord (openBusLoop (writeWord m i pad) (i + 4) (uadd16 pad 0x00020002) n)
        (i + 4 * k) = padIter pad k
    cases k with
    | zero =>
      rw [show i + 4 * 0 = i by omega,
          readWord_openBusLoop_lower n _ _ _ _ (by omega),
          readWord_writeWord _ _ _ hpad]
      rfl
    | succ k =>
      rw [show i + 4 * (k + 1) = (i + 4) + 4 * k by omega,
          ih k _ _ _ (by omega) (uadd16_lt _ _),
          padIter_shift pad k]

theorem padIter_pkhbt (p : Nat) : ∀ k, padIter (pkhbt p (p + 1)) k = obWord p k
  | 0 => by
    unfold padIter pkhbt obWord
    omega
  | k + 1 => by
    show uadd16 (padIter (pkhbt p (p + 1)) k) 0x00020002 = obWord p (k + 1)
    rw [padIter_pkhbt p k]
    unfold uadd16 obWord
    have h1 : ((p + 2 * k) % 65536 + (p + 1 + 2 * k) % 65536 * 65536) % 65536
        = (p + 2 * k) % 65536 := by
      rw [Nat.add_mul_mod_self_right]
      omega
    have h2 : ((p + 2 * k) % 65536 + (p + 1 + 2 * k) % 65536 * 65536) / 65536
        = (p + 1 + 2 * k) % 65536 := by
      rw [Nat.add_mul_div_right _ _ (by norm_num : 0 < 65536)]
      omega
    rw [h1, h2]
    omega

/-! ### nextPow2 and the padded size -/

theorem nextPow2Go_ge (fuel : Nat) :
    ∀ (x acc : Nat), x ≤ acc * 2 ^ fuel → x ≤ nextPow2Go x acc fuel := by
  induction fuel with
  | zero => intro x acc h; simpa [nextPow2Go] using h
  | succ fuel ih =>
    intro x acc h
    simp only [nextPow2Go]
    split
    · assumption
    · apply ih
      calc x ≤ acc * 2 ^ (fuel + 1) := h
        _ = acc * 2 * 2 ^ fuel := by ring

theorem nextPow2_ge (x : Nat) (h : x ≤ 4294967296) : x ≤ nextPow2 x := by
  unfold nextPow2
  exact nextPow2Go_ge 32 x 1 (by norm_num; omega)

theorem nextPow2Go_le (fuel : Nat) :
    ∀ (x e c : Nat), x ≤ 2 ^ c → e ≤ c → nextPow2Go x (2 ^ e) fuel ≤ 2 ^ c := by
  induction fuel with
  | zero =>
    intro x e c _ hec
    simpa [nextPow2Go] using Nat.pow_le_pow_right (by omega) hec
  | succ fuel ih =>
    intro x e c hx hec
    simp only [nextPow2Go]
    split
    · exact Nat.pow_le_pow_right (by omega) hec
    · rename_i hlt
      have he : e < c := by
        rcases Nat.lt_or_ge e c with h | h
        · exact h
        · have : e = c := by omega
          subst this
          exact absurd hx hlt
      rw [show (2:Nat) ^ e * 2 = 2 ^ (e + 1) by rw [pow_succ]]
      exact ih x (e + 1) c hx (by omega)

theorem nextPow2_le (x c : Nat) (h : x ≤ 2 ^ c) : nextPow2 x ≤ 2 ^ c := by
  unfold nextPow2
  rw [show (1:Nat) = 2 ^ 0 from rfl]
  exact nextPow2Go_le 32 x 0 c h (by omega)

theorem nextPow2Go_isPow (fuel : Nat) :
    ∀ (x e : Nat), ∃ e2, nextPow2Go x (2 ^ e) fuel = 2 ^ e2 := by
  induction fuel with
  | zero => intro x e; exact ⟨e, rfl⟩
  | succ fuel ih =>
    intro x e
    simp only [nextPow2Go]
    split
    · exact ⟨e, rfl⟩
    · rw [show (2:Nat) ^ e * 2 = 2 ^ (e + 1) by rw [pow_succ]]
      exact ih x (e + 1)

theorem nextPow2_isPow (x : Nat) : ∃ e2, nextPow2 x = 2 ^ e2 := by
  unfold nextPow2
  rw [show (1:Nat) = 2 ^ 0 from rfl]
  exact nextPow2Go_isPow 32 x 0

theorem romPaddedSize_isPow (fs : Nat) : ∃ e, romPaddedSize fs = 2 ^ e := by
  obtain ⟨e2, he⟩ := nextPow2_isPow fs
  unfold romPaddedSize
  rw [he]
  rcases le_total (2 ^ e2) (0x100000 : Nat) with h | h
  · exact ⟨20, by rw [Nat.max_eq_right h]; norm_num⟩
  · exact ⟨e2, by rw [Nat.max_eq_left h]⟩

theorem romPaddedSize_dvd4 (fs : Nat) : 4 ∣ romPaddedSize fs := by
  obtain ⟨e, he⟩ := romPaddedSize_isPow fs
  have h20 : (0x100000 : Nat) ≤ romPaddedSize fs := le_max_right _ _
  have he2 : 2 ≤ e := by
    by_contra hc
    push_neg at hc
    rw [he] at h20
    interval_cases e <;> norm_num at h20
  rw [he]
  have hd : (2 : Nat) ^ 2 ∣ 2 ^ e := pow_dvd_pow 2 he2
  norm_num at hd
  exact hd

/-! ### fixRomPadding projections and the memset region -/

theorem fixRomPadding_snd (m : Mem) (fs : Nat) :
    (fixRomPadding m fs).2 = romPaddedSize fs := by
  unfold fixRomPadding
  split <;> rfl

theorem mirrorLoop_lower (n : Nat) : ∀ (m : Mem) (i s a : Nat), a < i →
    mirrorLoop m i s n a = m a := by
  induction n with
  | zero => intro m i s a _; rfl
  | succ n ih =>
    intro m i s a ha
    show mirrorLoop (memcpyFromBase m i s) (i + s) s n a = m a
    rw [ih _ _ _ _ (by omega)]
    simp only [memcpyFromBase]
    rw [if_neg (by omega)]

theorem romPaddedSize_ge (fs : Nat) (h : fs ≤ MAX_ROM_SIZE) : fs ≤ romPaddedSize fs := by
  refine le_trans (nextPow2_ge fs ?_) (le_max_left _ _)
  unfold MAX_ROM_SIZE at h
  omega

theorem fixRomPadding_ff (m : Mem) (fs : Nat) (h2 : fs ≤ MAX_ROM_SIZE) :
    ∀ a, ROM_LOC + fs ≤ a → a < ROM_LOC + romPaddedSize fs →
      (fixRomPadding m fs).1 a = 0xFF := by
  intro a ha1 ha2
  have hfsle : fs ≤ romPaddedSize fs := romPaddedSize_ge fs h2
  unfold fixRomPadding
  split
  · show openBusLoop _ _ _ _ a = _
    rw [openBusLoop_lower _ _ _ _ _ (by omega)]
    simp only [memsetFF]
    rw [if_pos (by omega)]
  · show mirrorLoop _ _ _ _ a = _
    rw [mirrorLoop_lower _ _ _ _ _ (by omega)]
    simp only [memsetFF]
    rw [if_pos (by omega)]

/-- C3: for every `fileSize` in `[1, 32 MiB]` the padding pass of
`fixRomPadding` produces `paddedSize = max(nextPow2 fileSize, 1 MiB)` and
every byte of the window in `[fileSize, paddedSize)` equals 0xFF. -/
theorem romPaddingProducesFF (m : Mem) (fileSize : Nat)
    (h1 : 1 ≤ fileSize) (h2 : fileSize ≤ MAX_ROM_SIZE) :
    (fixRomPadding m fileSize).2 = max (nextPow2 fileSize) 0x100000 ∧
    ∀ a, ROM_LOC + fileSize ≤ a → a < ROM_LOC + max (nextPow2 fileSize) 0x100000 →
      (fixRomPadding m fileSize).1 a = 0xFF := by
  refine ⟨by rw [fixRomPadding_snd]; rfl, ?_⟩
  intro a ha1 ha2
  exact fixRomPadding_ff m fileSize h2 a ha1 ha2

/-- C3 witness: a 300-byte image; byte at offset 500 of the window is 0xFF
and the padded size comes out as stated. -/
theorem romPaddingProducesFF_witness :
    (fixRomPadding (fun _ => 0) 300).2 = max (nextPow2 300) 0x100000 ∧
    (fixRomPadding (fun _ => 0) 300).1 (ROM_LOC + 500) = 0xFF :=
  ⟨(romPaddingProducesFF (fun _ => 0) 300 (by decide) (by decide)).1,
   (romPaddingProducesFF (fun _ => 0) 300 (by decide) (by decide)).2
     (ROM_LOC + 500) (by omega) (by decide)⟩

/-- C2: for every `fileSize` strictly above 1 MiB (and within the window),
every 32-bit word the padding pass leaves at `base + paddedSize + 4k` (up to
the end of the 32 MiB window) equals the open-bus function of that address:
the first word packs the low 16 bits of `(base+paddedSize)/2` and that value
plus one, and each subsequent word adds `0x00020002` halfword-wise. -/
theorem openBusPatternCorrect (m : Mem) (fileSize k : Nat)
    (h1 : 0x100000 < fileSize) (h2 : fileSize ≤ MAX_ROM_SIZE)
    (hk : (fixRomPadding m fileSize).2 + 4 * k < MAX_ROM_SIZE) :
    readWord (fixRomPadding m fileSize).1
        (ROM_LOC + (fixRomPadding m fileSize).2 + 4 * k) =
      obWord ((ROM_LOC + (fixRomPadding m fileSize).2) / 2) k := by
  rw [fixRomPadding_snd] at hk ⊢
  have hbig : 0x100000 < romPaddedSize fileSize :=
    lt_of_lt_of_le h1 (romPaddedSize_ge fileSize h2)
  have hdvd : 4 ∣ romPaddedSize fileSize := romPaddedSize_dvd4 fileSize
  have hkn : k < (MAX_ROM_SIZE - romPaddedSize fileSize) / 4 := by
    unfold MAX_ROM_SIZE at hk ⊢
    omega
  unfold fixRomPadding
  rw [if_pos hbig]
  exact (openBusLoop_get _ k _ _ _ hkn (pkhbt_lt _ _)).trans
    (padIter_pkhbt ((ROM_LOC + romPaddedSize fileSize) / 2) k)

set_option maxRecDepth 8192 in
/-- C2 witness: fileSize 1 MiB + 1 (padded to 2 MiB), word index 1. -/
theorem openBusPatternCorrect_witness :
    readWord (fixRomPadding (fun _ => 0) 0x100001).1
        (ROM_LOC + (fixRomPadding (fun _ => 0) 0x100001).2 + 4 * 1) =
      obWord ((ROM_LOC + (fixRomPadding (fun _ => 0) 0x100001).2) / 2) 1 :=
  openBusPatternCorrect (fun _ => 0) 0x100001 1 (by decide) (by decide) (by decide)

/-! ### The mirroring branch -/

theorem mirrorLoop_get (n : Nat) :
    ∀ (m : Mem) (i a : Nat), ROM_LOC + 0x100000 ≤ i → i ≤ a → a < i + n * 0x100000 →
      mirrorLoop m i 0x100000 n a = m (ROM_LOC + (a - i) % 0x100000) := by
  induction n with
  | zero => intro m i a _ h1 h2; omega
  | succ n ih =>
    intro m i a hbase h1 h2
    show mirrorLoop (memcpyFromBase m i 0x100000) (i + 0x100000) 0x100000 n a = _
    rcases Nat.lt_or_ge a (i + 0x100000) with hlt | hge
    · rw [mirrorLoop_lower _ _ _ _ _ hlt]
      simp only [memcpyFromBase]
      rw [if_pos (by omega)]
      exact congrArg m (by omega)
    · rw [ih _ _ _ (by omega) hge (by omega)]
      simp only [memcpyFromBase]
      rw [if_neg (by omega)]
      exact congrArg m (by omega)

theorem romPaddedSize_small (fs : Nat) (h : fs ≤ 0x100000) :
    romPaddedSize fs = 0x100000 := by
  unfold romPaddedSize
  have hle : nextPow2 fs ≤ 0x100000 := by
    have := nextPow2_le fs 20 (by norm_num; omega)
    norm_num at this
    omega
  omega

theorem fixRomPadding_fst_mirror (m : Mem) (fs x : Nat)
    (h : ¬ 0x100000 < romPaddedSize fs) :
    (fixRomPadding m fs).1 x =
      mirrorLoop (memsetFF m (ROM_LOC + fs) (romPaddedSize fs - fs))
        (ROM_LOC + romPaddedSize fs) (romPaddedSize fs)
        ((MAX_ROM_SIZE - romPaddedSize fs) / romPaddedSize fs) x := by
  unfold fixRomPadding
  rw [if_neg h]

/-- C4: for every `fileSize ≤ 1 MiB` (padded size 1 MiB), every byte of the
window from `paddedSize` up to the 32 MiB capacity equals the byte at the
same offset modulo `paddedSize` from the window base: the first 1 MiB block
is tiled across the whole window. -/
theorem romMirrorTiling (m : Mem) (fileSize a : Nat)
    (h1 : 1 ≤ fileSize) (h2 : fileSize ≤ 0x100000)
    (ha1 : ROM_LOC + (fixRomPadding m fileSize).2 ≤ a)
    (ha2 : a < ROM_LOC + MAX_ROM_SIZE) :
    (fixRomPadding m fileSize).1 a =
      (fixRomPadding m fileSize).1
        (ROM_LOC + (a - ROM_LOC) % (fixRomPadding m fileSize).2) := by
  have hply : romPaddedSize fileSize = 0x100000 := romPaddedSize_small fileSize h2
  rw [fixRomPadding_snd, hply] at ha1 ⊢
  unfold MAX_ROM_SIZE at ha2
  rw [fixRomPadding_fst_mirror m fileSize _ (by omega),
      fixRomPadding_fst_mirror m fileSize _ (by omega), hply]
  have hcount : (MAX_ROM_SIZE - 0x100000) / 0x100000 = 31 := by
    unfold MAX_ROM_SIZE
    norm_num
  rw [hcount]
  rw [mirrorLoop_get 31 _ _ _ (by omega) (by omega) (by omega)]
  rw [mirrorLoop_lower 31 _ _ _ _ (by omega)]
  exact congrArg _ (by omega)

/-- C4 witness: fileSize 1, sampled at window offset 0x123456. -/
theorem romMirrorTiling_witness :
    (fixRomPadding (fun _ => 0) 1).1 (ROM_LOC + 0x123456) =
      (fixRomPadding (fun _ => 0) 1).1
        (ROM_LOC + (ROM_LOC + 0x123456 - ROM_LOC) % (fixRomPadding (fun _ => 0) 1).2) :=
  romMirrorTiling (fun _ => 0) 1 (ROM_LOC + 0x123456) (by decide) (by decide)
    (by decide) (by decide)

/-! ### The SDK-string scan -/

theorem memcmpEq_iff (m : Mem) : ∀ (bs : List Nat) (p : Nat),
    memcmpEq m p bs = true ↔ ∀ j, j < bs.length → m (p + j) = bs.getD j 0 := by
  intro bs
  induction bs with
  | nil =>
    intro p
    simp [memcmpEq]
  | cons b bs ih =>
    intro p
    simp only [memcmpEq, Bool.and_eq_true, beq_iff_eq]
    constructor
    · rintro ⟨hb, hrest⟩ j hj
      cases j with
      | zero => simpa using hb
      | succ j =>
        have hrec := (ih (p + 1)).mp hrest j (by simpa using hj)
        have e : p + 1 + j = p + (j + 1) := by omega
        rw [e] at hrec
        simpa using hrec
    · intro h
      refine ⟨by simpa using h 0 (by simp), (ih (p + 1)).mpr ?_⟩
      intro j hj
      have hrec := h (j + 1) (by simpa using hj)
      have e : p + (j + 1) = p + 1 + j := by omega
      rw [e] at hrec
      simpa using hrec

theorem lutSearch_none (m : Mem) (p : Nat) : ∀ (L : List (String × Nat)),
    (∀ i, i < L.length →
      memcmpEq m p (strBytes (L.getD i ("", SAVE_TYPE_NONE)).1) = false) →
    lutSearch m p L = none := by
  intro L
  induction L with
  | nil => intro _; rfl
  | cons e L ih =>
    intro h
    have h0 : memcmpEq m p (strBytes e.1) = false := by
      have := h 0 (by simp)
      simpa using this
    show (if memcmpEq m p (strBytes e.1) then some e.2 else lutSearch m p L) = none
    rw [h0]
    simp only [Bool.false_eq_true, if_false]
    exact ih fun i hi => by
      have := h (i + 1) (by simpa using hi)
      simpa using this

theorem lutSearch_some (m : Mem) (p : Nat) : ∀ (L : List (String × Nat)) (i : Nat),
    i < L.length →
    memcmpEq m p (strBytes (L.getD i ("", SAVE_TYPE_NONE)).1) = true →
    (∀ i2, i2 < i →
      memcmpEq m p (strBytes (L.getD i2 ("", SAVE_TYPE_NONE)).1) = false) →
    lutSearch m p L = some (L.getD i ("", SAVE_TYPE_NONE)).2 := by
  intro L
  induction L with
  | nil => intro i hi _ _; simp at hi
  | cons e L ih =>
    intro i hi hm hprev
    show (if memcmpEq m p (strBytes e.1) then some e.2 else lutSearch m p L) = _
    cases i with
    | zero =>
      rw [show memcmpEq m p (strBytes e.1) = true by simpa using hm]
      simp
    | succ i =>
      have h0 : memcmpEq m p (strBytes e.1) = false := by
        simpa using hprev 0 (by omega)
      rw [h0]
      simp only [Bool.false_eq_true, if_false]
      have := ih i (by simpa using hi) (by simpa using hm)
        fun i2 hi2 => by simpa using hprev (i2 + 1) (by omega)
      simpa using this

theorem markerMatch_iff (w : Nat) :
    markerMatch w = true ↔
      (w = 0x52504545 ∨ w = 0x53414C46 ∨ w = 0x4D415253) := by
  simp [markerMatch, Bool.or_eq_true, beq_iff_eq, or_assoc]

theorem wordMatch_none_of_not_hit (m : Mem) (p : Nat) (h : ¬ sdkHitAt m p) :
    wordMatch m p = none := by
  unfold wordMatch
  rcases Bool.eq_false_or_eq_true (markerMatch (readWord m p)) with hb | hb
  · rw [hb]
    simp only [if_pos rfl]
    apply lutSearch_none
    intro i hi
    rcases Bool.eq_false_or_eq_true
        (memcmpEq m p (strBytes (saveTypeLut.getD i ("", SAVE_TYPE_NONE)).1)) with hc | hc
    · exact absurd ⟨(markerMatch_iff _).mp hb, i, hi, (memcmpEq_iff m _ p).mp hc⟩ h
    · exact hc
  · rw [hb]
    simp

theorem wordMatch_some_of (m : Mem) (p i : Nat) (hi : i < saveTypeLut.length)
    (hmark : markerAt m p)
    (hstr : sdkStrAt m p (saveTypeLut.getD i ("", SAVE_TYPE_NONE)).1)
    (hprev : ∀ i2, i2 < i → ¬ sdkStrAt m p (saveTypeLut.getD i2 ("", SAVE_TYPE_NONE)).1) :
    wordMatch m p = some (saveTypeLut.getD i ("", SAVE_TYPE_NONE)).2 := by
  unfold wordMatch
  rw [(markerMatch_iff _).mpr hmark]
  simp only [if_pos rfl]
  refine lutSearch_some m p saveTypeLut i hi ((memcmpEq_iff m _ p).mpr hstr) ?_
  intro i2 h2
  rcases Bool.eq_false_or_eq_true
      (memcmpEq m p (strBytes (saveTypeLut.getD i2 ("", SAVE_TYPE_NONE)).1)) with hc | hc
  · exact absurd ((memcmpEq_iff m _ p).mp hc) (hprev i2 h2)
  · exact hc

theorem scanLoop_none (m : Mem) : ∀ (n p : Nat),
    (∀ k, k < n → wordMatch m (p + 4 * k) = none) → scanLoop m p n = none := by
  intro n
  induction n with
  | zero => intro p _; rfl
  | succ n ih =>
    intro p h
    have h0 : wordMatch m p = none := by
      have := h 0 (by omega)
      have e : p + 4 * 0 = p := by omega
      rwa [e] at this
    simp only [scanLoop, h0]
    exact ih (p + 4) fun k hk => by
      have := h (k + 1) (by omega)
      have e : p + 4 * (k + 1) = p + 4 + 4 * k := by omega
      rwa [e] at this

theorem scanLoop_first (m : Mem) : ∀ (n p k t : Nat), k < n →
    wordMatch m (p + 4 * k) = some t →
    (∀ j, j < k → wordMatch m (p + 4 * j) = none) →
    scanLoop m p n = some t := by
  intro n
  induction n with
  | zero => intro p k t hk _ _; omega
  | succ n ih =>
    intro p k t hk hm hprev
    cases k with
    | zero =>
      have e : p + 4 * 0 = p := by omega
      rw [e] at hm
      simp only [scanLoop, hm]
    | succ k =>
      have h0 : wordMatch m p = none := by
        have := hprev 0 (by omega)
        have e : p + 4 * 0 = p := by omega
        rwa [e] at this
      simp only [scanLoop, h0]
      refine ih (p + 4) k t (by omega) ?_ ?_
      · have e : p + 4 * (k + 1) = p + 4 + 4 * k := by omega
        rwa [e] at hm
      · intro j hj
        have := hprev (j + 1) (by omega)
        have e : p + 4 * (j + 1) = p + 4 + 4 * j := by omega
        rwa [e] at this

/-- C5: save-type detection is staged as claimed: (1) an override-table hit
(including the Classic NES Series low-byte rule, which maps to EEPROM-8k) is
returned immediately, regardless of any SDK string in the image; otherwise
(2) the scan over 32-bit-aligned words after the 0xE4-byte header returns
the save type of the table-order-first SDK literal at the position-first
marker word ("EEPR"/"FLAS"/"SRAM"), with the EEPROM size promotion applied;
otherwise (3) no-save when no match occurs before the image end. -/
theorem tryDetectSaveTypeStaged (m : Mem) (romSize : Nat) :
    (checkSaveOverride (readWord m (ROM_LOC + 0xAC)) ≠ 0xFF →
      tryDetectSaveType m romSize = checkSaveOverride (readWord m (ROM_LOC + 0xAC))) ∧
    (∀ gc, gc % 256 = 70 → checkSaveOverride gc = SAVE_TYPE_EEPROM_8k) ∧
    (checkSaveOverride (readWord m (ROM_LOC + 0xAC)) = 0xFF →
      ((∀ k, k < scanCount romSize → ¬ sdkHitAt m (ROM_LOC + 0xE4 + 4 * k)) →
        tryDetectSaveType m romSize = SAVE_TYPE_NONE) ∧
      (∀ k i, k < scanCount romSize → i < saveTypeLut.length →
        markerAt m (ROM_LOC + 0xE4 + 4 * k) →
        sdkStrAt m (ROM_LOC + 0xE4 + 4 * k) (saveTypeLut.getD i ("", SAVE_TYPE_NONE)).1 →
        (∀ j, j < k → ¬ sdkHitAt m (ROM_LOC + 0xE4 + 4 * j)) →
        (∀ i2, i2 < i →
          ¬ sdkStrAt m (ROM_LOC + 0xE4 + 4 * k) (saveTypeLut.getD i2 ("", SAVE_TYPE_NONE)).1) →
        tryDetectSaveType m romSize =
          promoteEeprom romSize (saveTypeLut.getD i ("", SAVE_TYPE_NONE)).2)) := by
  refine ⟨?_, ?_, ?_⟩
  · intro h
    unfold tryDetectSaveType
    rw [if_pos h]
  · intro gc hgc
    unfold checkSaveOverride
    rw [if_pos hgc]
  · intro hov
    constructor
    · intro hnone
      unfold tryDetectSaveType
      rw [if_neg (not_not_intro hov),
        scanLoop_none m (scanCount romSize) (ROM_LOC + 0xE4)
          fun k hk => wordMatch_none_of_not_hit m _ (hnone k hk)]
    · intro k i hk hi hmark hstr hjprev hiprev
      unfold tryDetectSaveType
      rw [if_neg (not_not_intro hov),
        scanLoop_first m (scanCount romSize) (ROM_LOC + 0xE4) k
          (saveTypeLut.getD i ("", SAVE_TYPE_NONE)).2 hk
          (wordMatch_some_of m _ i hi hmark hstr hiprev)
          fun j hj => wordMatch_none_of_not_hit m _ (hjprev j hj)]

set_option maxRecDepth 8192 in
/-- C5 witness: an override hit ("AA2" → EEPROM-64k, the embedded SDK
string being irrelevant), a scan hit ("SRAM_V110" at the first scanned word
→ SRAM-256k), and a no-match image → no save. -/
theorem tryDetectSaveTypeStaged_witness :
    tryDetectSaveType memGameAA2 0x100 = SAVE_TYPE_EEPROM_64k ∧
    tryDetectSaveType memSramV110 0xE8 = SAVE_TYPE_SRAM_256k ∧
    tryDetectSaveType memAllOnes 0xE8 = SAVE_TYPE_NONE := by
  refine ⟨?_, ?_, ?_⟩
  · have h := (tryDetectSaveTypeStaged memGameAA2 0x100).1 (by decide)
    rw [h]
    decide
  · have h := ((tryDetectSaveTypeStaged memSramV110 0xE8).2.2 (by decide)).2 0 21
      (by decide) (by decide) (by decide) (by decide)
      (fun j hj => absurd hj (by omega)) (by decide)
    rw [h]
    decide
  · have hnone : ∀ k, k < scanCount 0xE8 → ¬ sdkHitAt memAllOnes (ROM_LOC + 0xE4 + 4 * k) := by
      intro k hk hhit
      have hk0 : k = 0 := by
        have hc : scanCount 0xE8 = 1 := by decide
        omega
      subst hk0
      exact absurd hhit.1 (by decide)
    exact ((tryDetectSaveTypeStaged memAllOnes 0xE8).2.2 (by decide)).1 hnone

/-! ### C1: the EEPROM large-ROM promotion -/

theorem promoteEeprom_big (romSize t : Nat) (hbig : 0x1000000 < romSize)
    (ht : t = SAVE_TYPE_EEPROM_8k ∨ t = SAVE_TYPE_EEPROM_64k) :
    promoteEeprom romSize t = t + 1 := by
  unfold promoteEeprom
  rw [if_pos ht, if_pos hbig]

/-- C1 counterexample: a 32 MiB ROM whose game code "AA2" hits the override
table with base type EEPROM-64k is returned unpromoted (2, not the `_2`
sibling 3) — the promotion rule does not hold on the override-table path. -/
theorem overridePathNoPromotion :
    checkSaveOverride (readWord memGameAA2 (ROM_LOC + 0xAC)) = SAVE_TYPE_EEPROM_64k ∧
    0x1000000 < 0x2000000 ∧
    tryDetectSaveType memGameAA2 0x2000000 = SAVE_TYPE_EEPROM_64k ∧
    SAVE_TYPE_EEPROM_64k ≠ SAVE_TYPE_EEPROM_64k_2 := by
  refine ⟨by decide, by decide, by decide, by decide⟩

/-- C1 (amended): for ROM images above 16 MiB, an 8k/64k EEPROM base type is
promoted to its `_2` sibling on the heuristic SDK-string scan path and in
the manual-selection flow of `saveDbDebug`; the override-table path returns
its table value without promotion (see the counterexample). -/
theorem eepromPromotionScanAndManual (m : Mem) (romSize t : Nat)
    (hbig : 0x1000000 < romSize)
    (ht : t = SAVE_TYPE_EEPROM_8k ∨ t = SAVE_TYPE_EEPROM_64k) :
    (checkSaveOverride (readWord m (ROM_LOC + 0xAC)) = 0xFF →
      scanLoop m (ROM_LOC + 0xE4) (scanCount romSize) = some t →
      tryDetectSaveType m romSize = t + 1) ∧
    (∀ cursor, cursorSaveTypeLut.getD cursor 0 = t →
      manualSaveTypeSelect romSize cursor = t + 1) := by
  constructor
  · intro hov hscan
    unfold tryDetectSaveType
    rw [if_neg (not_not_intro hov), hscan]
    exact promoteEeprom_big romSize t hbig ht
  · intro cursor hcur
    unfold manualSaveTypeSelect
    rw [hcur]
    exact promoteEeprom_big romSize t hbig ht

set_option maxRecDepth 8192 in
/-- C1 witness: a 32 MiB image with "EEPROM_V111" at the first scanned word
is promoted to EEPROM-8k_2 on the scan path; cursor 0 (EEPROM 4k/8k) is
promoted likewise in the manual flow. -/
theorem eepromPromotionScanAndManual_witness :
    tryDetectSaveType memEepromV111 0x2000000 = SAVE_TYPE_EEPROM_8k + 1 ∧
    manualSaveTypeSelect 0x2000000 0 = SAVE_TYPE_EEPROM_8k + 1 :=
  ⟨(eepromPromotionScanAndManual memEepromV111 0x2000000 SAVE_TYPE_EEPROM_8k
      (by decide) (Or.inl rfl)).1 (by decide) (by decide),
   (eepromPromotionScanAndManual memEepromV111 0x2000000 SAVE_TYPE_EEPROM_8k
      (by decide) (Or.inl rfl)).2 0 (by decide)⟩

/-! ### C9: the diagnostic bounds check -/

/-- C9: the database-correction bounds check `dbPos > -1 || dbPos < 3253`
evaluates to true for every signed position value (any integer is either
greater than -1 or less than 3253), so the "Db position out of range"
error branch of `saveDbDebug` is unreachable. -/
theorem dbPosCheckAlwaysTrue (p : Int) : dbPosInRange p = true := by
  unfold dbPosInRange
  simp only [Bool.or_eq_true, decide_eq_true_eq]
  omega

/-! ### C7 and C10: the loader -/

/-- C7: an input file strictly larger than the 32 MiB window fails with
`ROM_TOO_BIG`; no byte of the destination window is written and the output
size parameter keeps its previous value. -/
theorem loadGbaRomTooBig (f : RomFile) (m : Mem) (prevOut : Nat)
    (h : MAX_ROM_SIZE < f.size) :
    (loadGbaRom f m prevOut).1 = Result.romTooBig ∧
    (∀ a, (loadGbaRom f m prevOut).2.1 a = m a) ∧
    (loadGbaRom f m prevOut).2.2 = prevOut := by
  unfold loadGbaRom
  rw [if_neg (by omega)]
  exact ⟨rfl, fun a => rfl, rfl⟩

/-- C7 witness: a 32 MiB + 1 byte file. -/
theorem loadGbaRomTooBig_witness :
    (loadGbaRom romFileBig memZero 7).1 = Result.romTooBig ∧
    (loadGbaRom romFileBig memZero 7).2.1 ROM_LOC = 0 ∧
    (loadGbaRom romFileBig memZero 7).2.2 = 7 :=
  ⟨(loadGbaRomTooBig romFileBig memZero 7 (by decide)).1,
   (loadGbaRomTooBig romFileBig memZero 7 (by decide)).2.1 ROM_LOC,
   (loadGbaRomTooBig romFileBig memZero 7 (by decide)).2.2⟩

theorem copyChunks_err (f : RomFile) (e : Result) :
    ∀ (c k : Nat) (m : Mem) (fuel : Nat), c < fuel →
      (∀ j, j < c → f.readErr (k + j) = none ∧ (k + j + 1) * 0x100000 ≤ f.size) →
      f.readErr (k + c) = some e →
      (copyChunks f m k fuel).1 = e := by
  intro c
  induction c with
  | zero =>
    intro k m fuel hf hpre herr
    cases fuel with
    | zero => omega
    | succ fuel =>
      rw [Nat.add_zero] at herr
      simp only [copyChunks, herr]
  | succ c ih =>
    intro k m fuel hf hpre herr
    cases fuel with
    | zero => omega
    | succ fuel =>
      have h0 := hpre 0 (by omega)
      rw [Nat.add_zero] at h0
      have hmin : min 0x100000 (f.size - k * 0x100000) = 0x100000 := by
        have := h0.2
        omega
      simp only [copyChunks, h0.1, hmin, if_pos]
      apply ih (k + 1) _ fuel (by omega)
      · intro j hj
        have := hpre (j + 1) (by omega)
        have e1 : k + (j + 1) = k + 1 + j := by omega
        rwa [e1] at this
      · have e1 : k + (c + 1) = k + 1 + c := by omega
        rwa [e1] at herr

/-- C10: when the file fits the window but a 1 MiB chunk read fails
mid-stream, the loader still runs the full padding pass over the window and
writes the computed padded size to its output parameter, returning the
chunk-read error code: loading is not atomic on read errors. -/
theorem loadGbaRomNotAtomic (f : RomFile) (m : Mem) (prevOut : Nat)
    (k : Nat) (e : Result) (hsz : f.size ≤ MAX_ROM_SIZE)
    (hpre : ∀ j, j < k → f.readErr j = none ∧ (j + 1) * 0x100000 ≤ f.size)
    (herr : f.readErr k = some e) :
    (loadGbaRom f m prevOut).1 = e ∧
    (loadGbaRom f m prevOut).2.2 = max (nextPow2 f.size) 0x100000 ∧
    (∀ a, ROM_LOC + f.size ≤ a → a < ROM_LOC + max (nextPow2 f.size) 0x100000 →
      (loadGbaRom f m prevOut).2.1 a = 0xFF) := by
  have hk33 : k < 33 := by
    rcases Nat.eq_zero_or_pos k with h0 | hpos
    · omega
    · have := (hpre (k - 1) (by omega)).2
      unfold MAX_ROM_SIZE at hsz
      omega
  unfold loadGbaRom
  rw [if_pos hsz]
  refine ⟨?_, ?_, ?_⟩
  · apply copyChunks_err f e k 0 m 33 hk33
    · intro j hj
      have := hpre j hj
      rwa [Nat.zero_add]
    · rwa [Nat.zero_add]
  · rw [fixRomPadding_snd]
    rfl
  · intro a ha1 ha2
    exact fixRomPadding_ff _ f.size hsz a ha1 ha2

set_option maxRecDepth 8192 in
/-- C10 witness: a 1.5 MiB file whose very first chunk read fails; the error
is returned, yet the padded size (2 MiB) is written and the padding bytes
are in place. -/
theorem loadGbaRomNotAtomic_witness :
    (loadGbaRom romFileBadRead memZero 7).1 = Result.ioErr 1 ∧
    (loadGbaRom romFileBadRead memZero 7).2.2 =
      max (nextPow2 romFileBadRead.size) 0x100000 ∧
    (loadGbaRom romFileBadRead memZero 7).2.1 (ROM_LOC + 0x180000) = 0xFF := by
  have h := loadGbaRomNotAtomic romFileBadRead memZero 7 0 (Result.ioErr 1)
    (by decide) (fun j hj => absurd hj (by omega)) (by decide)
  exact ⟨h.1, h.2.1, h.2.2 (ROM_LOC + 0x180000) (by decide) (by decide)⟩

/-! ### C8: the frame-dispatch task -/

theorem gbaGfxHandler_steady (k : Nat) :
    gbaGfxHandler true (List.replicate k true ++ [false]) =
      (List.replicate k (gfxCycle false)).flatten ++
        [GfxEv.waitFail, GfxEv.taskExitEv] := by
  induction k with
  | zero => rfl
  | succ k ih =>
    rw [List.replicate_succ, List.cons_append]
    show GfxEv.waitOk :: GfxEv.clearEv ::
        (if true then GfxEv.submitSteady else GfxEv.submitInit) ::
        GfxEv.waitP3D :: GfxEv.transferEv :: GfxEv.waitPPF :: GfxEv.swapEv ::
        gbaGfxHandler true (List.replicate k true ++ [false]) = _
    rw [ih, List.replicate_succ, List.flatten_cons]
    simp [gfxCycle]

theorem flatten_replicate_count (L : List GfxEv) (e : GfxEv) (k : Nat) :
    ((List.replicate k L).flatten).count e = k * L.count e := by
  induction k with
  | zero => simp
  | succ k ih =>
    rw [List.replicate_succ, List.flatten_cons, List.count_append, ih]
    ring

/-- C8: for every run in which the frame signal is successfully observed `N`
times (`N ≥ 1`) and then a wait fails, the task's event trace is exactly the
initialization cycle followed by `N - 1` steady-state cycles — each cycle
strictly ordered wait, clear, submit, wait-P3D, transfer, wait-PPF, swap —
and then the failed wait and the permanent task exit; so exactly one init
list, `N - 1` steady lists, `N` transfers and `N` swaps are submitted. -/
theorem gbaGfxHandlerCycles (N : Nat) (hN : 1 ≤ N) :
    gbaGfxHandler false (List.replicate N true ++ [false]) =
      gfxCycle true ++ ((List.replicate (N - 1) (gfxCycle false)).flatten ++
        [GfxEv.waitFail, GfxEv.taskExitEv]) ∧
    (gbaGfxHandler false (List.replicate N true ++ [false])).count GfxEv.submitInit = 1 ∧
    (gbaGfxHandler false (List.replicate N true ++ [false])).count GfxEv.submitSteady = N - 1 ∧
    (gbaGfxHandler false (List.replicate N true ++ [false])).count GfxEv.transferEv = N ∧
    (gbaGfxHandler false (List.replicate N true ++ [false])).count GfxEv.swapEv = N := by
  obtain ⟨k, rfl⟩ : ∃ k, N = k + 1 := ⟨N - 1, by omega⟩
  have hstep : gbaGfxHandler false (List.replicate (k + 1) true ++ [false]) =
      gfxCycle true ++ ((List.replicate k (gfxCycle false)).flatten ++
        [GfxEv.waitFail, GfxEv.taskExitEv]) := by
    rw [List.replicate_succ, List.cons_append]
    show GfxEv.waitOk :: GfxEv.clearEv ::
        (if false then GfxEv.submitSteady else GfxEv.submitInit) ::
        GfxEv.waitP3D :: GfxEv.transferEv :: GfxEv.waitPPF :: GfxEv.swapEv ::
        gbaGfxHandler true (List.replicate k true ++ [false]) = _
    rw [gbaGfxHandler_steady k]
    simp [gfxCycle]
  have e1 : k + 1 - 1 = k := by omega
  rw [e1]
  refine ⟨hstep, ?_, ?_, ?_, ?_⟩
  · rw [hstep, List.count_append, List.count_append, flatten_replicate_count]
    have a1 : (gfxCycle true).count GfxEv.submitInit = 1 := by decide
    have a2 : (gfxCycle false).count GfxEv.submitInit = 0 := by decide
    have a3 : ([GfxEv.waitFail, GfxEv.taskExitEv]).count GfxEv.submitInit = 0 := by decide
    rw [a1, a2, a3]
    ring
  · rw [hstep, List.count_append, List.count_append, flatten_replicate_count]
    have a1 : (gfxCycle true).count GfxEv.submitSteady = 0 := by decide
    have a2 : (gfxCycle false).count GfxEv.submitSteady = 1 := by decide
    have a3 : ([GfxEv.waitFail, GfxEv.taskExitEv]).count GfxEv.submitSteady = 0 := by decide
    rw [a1, a2, a3]
    ring
  · rw [hstep, List.count_append, List.count_append, flatten_replicate_count]
    have a1 : (gfxCycle true).count GfxEv.transferEv = 1 := by decide
    have a2 : (gfxCycle false).count GfxEv.transferEv = 1 := by decide
    have a3 : ([GfxEv.waitFail, GfxEv.taskExitEv]).count GfxEv.transferEv = 0 := by decide
    rw [a1, a2, a3]
    ring
  · rw [hstep, List.count_append, List.count_append, flatten_replicate_count]
    have a1 : (gfxCycle true).count GfxEv.swapEv = 1 := by decide
    have a2 : (gfxCycle false).count GfxEv.swapEv = 1 := by decide
    have a3 : ([GfxEv.waitFail, GfxEv.taskExitEv]).count GfxEv.swapEv = 0 := by decide
    rw [a1, a2, a3]
    ring

/-- C8 witness at N = 2: one init list, one steady list, two transfers. -/
theorem gbaGfxHandlerCycles_witness :
    (gbaGfxHandler false (List.replicate 2 true ++ [false])).count GfxEv.submitInit = 1 ∧
    (gbaGfxHandler false (List.replicate 2 true ++ [false])).count GfxEv.submitSteady = 2 - 1 ∧
    (gbaGfxHandler false (List.replicate 2 true ++ [false])).count GfxEv.transferEv = 2 :=
  ⟨(gbaGfxHandlerCycles 2 (by decide)).2.1,
   (gbaGfxHandlerCycles 2 (by decide)).2.2.1,
   (gbaGfxHandlerCycles 2 (by decide)).2.2.2.1⟩

/-! ### C6: the game-database binary search -/

theorem tdiv_two_nonneg (d : Int) (h : 0 ≤ d) :
    Int.tdiv d 2 = ((d.toNat / 2 : Nat) : Int) := by
  obtain ⟨n, rfl⟩ := Int.eq_ofNat_of_zero_le h
  rfl

theorem tdiv_neg_one : Int.tdiv (-1) 2 = 0 := by decide

theorem searchLoop_found (key : Nat → Nat) (N x : Nat)
    (hs : ∀ b, b < N → ∀ a, a ≤ b → key a ≤ key b) (i : Nat)
    (hiN : i < N) (hkey : key i = x) :
    ∀ (fuel : Nat) (l r : Int), 0 ≤ l → r < (N : Int) →
      l ≤ (i : Int) → (i : Int) ≤ r → (r - l).toNat < fuel →
      ∃ p : Int, searchLoop key x fuel l r = some p ∧ 0 ≤ p ∧ p < (N : Int) ∧
        key p.toNat = x := by
  intro fuel
  induction fuel with
  | zero => intro l r _ _ hli hir hf; omega
  | succ fuel ih =>
    intro l r hl hr hli hir hf
    have h0 : (0 : Int) ≤ r - l := by omega
    have hq : ((r - l).toNat : Int) = r - l := Int.toNat_of_nonneg h0
    simp only [searchLoop]
    rw [tdiv_two_nonneg _ h0]
    by_cases hkm : key (l + ((r - l).toNat / 2 : Nat) : Int).toNat = x
    · rw [if_pos hkm]
      exact ⟨_, rfl, by omega, by omega, hkm⟩
    · rw [if_neg hkm]
      have hne : ¬(r ≤ l ∨ r < 0) := by
        rintro (hle | hneg)
        · have hmid : (l + ((r - l).toNat / 2 : Nat) : Int) = (i : Int) := by omega
          rw [hmid] at hkm
          have ht : ((i : Int)).toNat = i := by omega
          rw [ht] at hkm
          exact hkm hkey
        · omega
      rw [if_neg hne]
      have hlr2 : l < r := by
        rcases not_or.mp hne with ⟨h1, _⟩
        omega
      have hmdN : (l + ((r - l).toNat / 2 : Nat) : Int).toNat < N := by omega
      by_cases hgt : x < key (l + ((r - l).toNat / 2 : Nat) : Int).toNat
      · rw [if_pos hgt]
        have hile : (i : Int) ≤ (l + ((r - l).toNat / 2 : Nat) : Int) - 1 := by
          by_contra hc
          push_neg at hc
          have hmi : (l + ((r - l).toNat / 2 : Nat) : Int).toNat ≤ i := by omega
          have h2 := hs i hiN _ hmi
          omega
        exact ih l ((l + ((r - l).toNat / 2 : Nat) : Int) - 1) hl (by omega) hli hile
          (by omega)
      · rw [if_neg hgt]
        have hklt : key (l + ((r - l).toNat / 2 : Nat) : Int).toNat < x := by omega
        have hige : (l + ((r - l).toNat / 2 : Nat) : Int) + 1 ≤ (i : Int) := by
          by_contra hc
          push_neg at hc
          have him : i ≤ (l + ((r - l).toNat / 2 : Nat) : Int).toNat := by omega
          have h2 := hs _ hmdN i him
          omega
        exact ih ((l + ((r - l).toNat / 2 : Nat) : Int) + 1) r (by omega) hr hige hir
          (by omega)

theorem searchLoop_notfound (key : Nat → Nat) (N x : Nat)
    (hx : ∀ i, i < N → key i ≠ x) :
    ∀ (fuel : Nat) (l r : Int), 0 ≤ l → l < (N : Int) → r < (N : Int) → l - 1 ≤ r →
      searchLoop key x fuel l r = none := by
  intro fuel
  induction fuel with
  | zero => intro l r _ _ _ _; rfl
  | succ fuel ih =>
    intro l r hl hlN hrN hlr
    simp only [searchLoop]
    by_cases hcase : r < l
    · have hrl : r - l = -1 := by omega
      rw [hrl, tdiv_neg_one]
      have hmk : key ((l + 0 : Int)).toNat ≠ x := by
        apply hx
        omega
      rw [if_neg hmk, if_pos (Or.inl (by omega : r ≤ l))]
    · push_neg at hcase
      have h0 : (0 : Int) ≤ r - l := by omega
      have hq : ((r - l).toNat : Int) = r - l := Int.toNat_of_nonneg h0
      rw [tdiv_two_nonneg _ h0]
      have hmk : key ((l + ((r - l).toNat / 2 : Nat) : Int)).toNat ≠ x := by
        apply hx
        omega
      rw [if_neg hmk]
      by_cases hend : r ≤ l ∨ r < 0
      · rw [if_pos hend]
      · rw [if_neg hend]
        have hlr2 : l < r := by
          rcases not_or.mp hend with ⟨h1, _⟩
          omega
        by_cases hgt : x < key ((l + ((r - l).toNat / 2 : Nat) : Int)).toNat
        · rw [if_pos hgt]
          exact ih l _ hl hlN (by omega) (by omega)
        · rw [if_neg hgt]
          exact ih _ r (by omega) (by omega) hrN (by omega)

/-- C6: for a database of `recordCount ≥ 1` fixed-size records whose keys
(the first 8 bytes of each record's hash as an unsigned 64-bit big-endian
integer) are sorted ascending, `searchGameDb` returns the position of a
record holding the key whenever one exists, and `NotFound` (`none`)
whenever no record has the key; the loop computes `mid = l + (r-l)/2`,
narrows to the lower half when the probed key is greater and to the upper
half otherwise, and exits when the bounds invert (see `searchLoop`). -/
theorem searchGameDb_correct (key : Nat → Nat) (N x : Nat) (hN : 0 < N)
    (hs : ∀ b, b < N → ∀ a, a ≤ b → key a ≤ key b) :
    ((∀ i, i < N → key i ≠ x) → searchGameDb key N x = none) ∧
    (∀ i, i < N → key i = x →
      ∃ p : Int, searchGameDb key N x = some p ∧ 0 ≤ p ∧ p < (N : Int) ∧
        key p.toNat = x) := by
  constructor
  · intro hx
    unfold searchGameDb
    exact searchLoop_notfound key N x hx (N + 2) 0 ((N : Int) - 1) (by omega)
      (by omega) (by omega) (by omega)
  · intro i hiN hkey
    unfold searchGameDb
    exact searchLoop_found key N x hs i hiN hkey (N + 2) 0 ((N : Int) - 1)
      (by omega) (by omega) (by omega) (by omega) (by omega)

/-- C6 witness: four sorted records with keys 10, 20, 30, 40; key 30 is
found, key 35 is not found. -/
theorem searchGameDb_correct_witness :
    (searchGameDb dbKeyFixture 4 30).isSome = true ∧
    searchGameDb dbKeyFixture 4 35 = none := by
  constructor
  · obtain ⟨p, hp, -, -, -⟩ :=
      (searchGameDb_correct dbKeyFixture 4 30 (by decide) (by decide)).2 2
        (by decide) (by decide)
    rw [hp]
    rfl
  · exact (searchGameDb_correct dbKeyFixture 4 35 (by decide) (by decide)).1
      (by decide)
